import Mathlib

/-!
Verification of the gitignore-style ignore engine of the notify repository
(`ignore.go`).  The Go code is shallowly embedded: the Go standard-library
string and glob primitives it calls (`strings.*`, `filepath.Match`,
`filepath.Clean`, `filepath.Rel`) are modelled first, for the Unix build of
the library (`filepath.Separator` is the slash, `filepath.ToSlash` is the
identity); paths and patterns are ASCII in every scenario considered, so Go's
byte indices coincide with character indices.  File-system effects
(`os.Stat`, `os.Open`, `bufio.Scanner`) are passed in as explicit oracles.
-/

namespace Notify

/-! ### Model of the Go standard library: `strings` -/

/-- `unicode.IsSpace` on the characters that can realistically occur in an
ignore file (ASCII whitespace plus NEL and NBSP). -/
def goIsSpace (c : Char) : Bool :=
  c = ' ' || c = '\t' || c = '\n' || c = '\x0b' || c = '\x0c' || c = '\r' ||
  c = '\u0085' || c = ' '

/-- `strings.TrimSpace`. -/
def TrimSpace (s : String) : String :=
  ⟨((s.data.dropWhile goIsSpace).reverse.dropWhile goIsSpace).reverse⟩

/-- Is the first list a prefix of the second?  (Recursion on the prefix.) -/
def leadsWith : List Char → List Char → Bool
  | [], _ => true
  | _ :: _, [] => false
  | a :: as, b :: bs => a == b && leadsWith as bs

/-- `strings.HasPrefix s pre`. -/
def HasPrefix (s pre : String) : Bool :=
  leadsWith pre.data s.data

/-- `strings.HasSuffix s suf`. -/
def HasSuffix (s suf : String) : Bool :=
  leadsWith suf.data.reverse s.data.reverse

/-- `strings.TrimPrefix s pre`. -/
def TrimPrefix (s pre : String) : String :=
  if HasPrefix s pre then ⟨s.data.drop pre.data.length⟩ else s

/-- `strings.TrimSuffix s suf`. -/
def TrimSuffix (s suf : String) : String :=
  if HasSuffix s suf then ⟨s.data.take (s.data.length - suf.data.length)⟩ else s

/-- Go's `s[n:]` on a string (byte = char here: ASCII). -/
def strDrop (s : String) (n : Nat) : String :=
  ⟨s.data.drop n⟩

/-- Go's `s[:n]` on a string. -/
def strTake (s : String) (n : Nat) : String :=
  ⟨s.data.take n⟩

/-- The string `c` followed by `s`. -/
def strCons (c : Char) (s : String) : String :=
  ⟨c :: s.data⟩

/-- Prepend a character to the first group of a split (helper for
`splitChar`). -/
def consHeadC (c : Char) : List (List Char) → List (List Char)
  | [] => [[c]]
  | g :: gs => (c :: g) :: gs

/-- `strings.Split s (String.singleton sep)` on the character list: split at
every occurrence of `sep`; always returns at least one (possibly empty)
group. -/
def splitChar (sep : Char) : List Char → List (List Char)
  | [] => [[]]
  | c :: cs =>
    if c = sep then [] :: splitChar sep cs
    else consHeadC c (splitChar sep cs)

/-- `strings.Join l "/"` on character lists. -/
def joinChar (sep : Char) : List (List Char) → List Char
  | [] => []
  | [g] => g
  | g :: gs => g ++ sep :: joinChar sep gs

/-- `strings.Split path "/"`. -/
def SplitSlash (s : String) : List String :=
  (splitChar '/' s.data).map String.mk

/-- `strings.Join parts "/"`. -/
def JoinSlash (l : List String) : String :=
  ⟨joinChar '/' (l.map String.data)⟩

/-- `strings.Split pattern "**"` on the character list: split around each
leftmost non-overlapping occurrence of two consecutive stars. -/
def splitStarStarL : List Char → List (List Char)
  | [] => [[]]
  | '*' :: '*' :: cs => [] :: splitStarStarL cs
  | c :: cs => consHeadC c (splitStarStarL cs)

/-- `strings.Split pattern "**"`. -/
def SplitStarStar (s : String) : List String :=
  (splitStarStarL s.data).map String.mk

/-- `strings.Contains pattern "**"` on the character list. -/
def containsStarStarL : List Char → Bool
  | [] => false
  | '*' :: '*' :: _ => true
  | _ :: cs => containsStarStarL cs

/-- `strings.Contains pattern "**"`. -/
def ContainsStarStar (s : String) : Bool :=
  containsStarStarL s.data

/-- `strings.ContainsAny seg "*?["`. -/
def ContainsAnyGlob (s : String) : Bool :=
  s.data.any (fun c => c = '*' || c = '?' || c = '[')

/-- `strings.Trim s "/"`: both ends stripped of slashes. -/
def TrimSlashes (s : String) : String :=
  ⟨((s.data.dropWhile (· = '/')).reverse.dropWhile (· = '/')).reverse⟩

/-- Helper for `strings.Index`: position of the first occurrence of `sub` in
`s`, `none` for Go's `-1`. -/
def goIndexL (sub : List Char) : List Char → Option Nat
  | [] => if leadsWith sub [] then some 0 else none
  | c :: t =>
    if leadsWith sub (c :: t) then some 0
    else (goIndexL sub t).map (· + 1)

/-- `strings.Index s sub` (`none` models `-1`). -/
def goIndex (s sub : String) : Option Nat :=
  goIndexL sub.data s.data

/-! ### Model of the Go standard library: `filepath.Match`

`filepath.Match` is modelled as a recursive matcher over character lists.
`*` matches any run of non-separator characters, `?` one non-separator
character, `[...]`/`[^...]` a character class (which, as in Go, does not
exclude the separator), `\c` the literal `c`.  Go returns
`(false, ErrBadPattern)` on a malformed pattern and every call site in
`ignore.go` discards the error, so a malformed pattern is modelled as a
plain non-match. -/

/-- `getEsc` of Go's `path/filepath`: read one (possibly escaped) class
character; `none` is `ErrBadPattern` (also when the class text ends right
after the character, before any `]`). -/
def getEsc : List Char → Option (Char × List Char)
  | [] => none
  | c :: rest =>
    if c = '-' ∨ c = ']' then none
    else if c = '\\' then
      match rest with
      | [] => none
      | d :: rest2 => if rest2.isEmpty then none else some (d, rest2)
    else if rest.isEmpty then none else some (c, rest)

/-- The range-parsing loop of `matchChunk`'s `[` case: collect `lo-hi` pairs
until the closing `]` (which only closes after at least one range).  The
fuel is one more than the character count of the input, and every step
consumes at least one character, so it never runs out. -/
def parseClassBody : Nat → Nat → List Char → Option (List (Char × Char) × List Char)
  | 0, _, _ => none
  | _ + 1, nrange, ']' :: rest =>
    if nrange > 0 then some ([], rest) else none
  | fuel + 1, nrange, chunk =>
    match getEsc chunk with
    | none => none
    | some (lo, rest1) =>
      match rest1 with
      | '-' :: rest2 =>
        match getEsc rest2 with
        | none => none
        | some (hi, rest3) =>
          (parseClassBody fuel (nrange + 1) rest3).map (fun p => ((lo, hi) :: p.1, p.2))
      | _ =>
        (parseClassBody fuel (nrange + 1) rest1).map (fun p => ((lo, lo) :: p.1, p.2))

/-- Parse a character class (the text after `[`): optional `^` negation,
then the ranges up to `]`.  Returns (negated, ranges, rest of pattern). -/
def parseClass (chunk : List Char) : Option (Bool × List (Char × Char) × List Char) :=
  match chunk with
  | '^' :: rest =>
    (parseClassBody (rest.length + 1) 0 rest).map (fun p => (true, p.1, p.2))
  | _ =>
    (parseClassBody (chunk.length + 1) 0 chunk).map (fun p => (false, p.1, p.2))

/-- `filepath.Match pattern name` with a discarded error, as a fueled
recursion.  Every recursive call strictly decreases
`pattern.length + name.length` (a class parse only ever returns a suffix of
its input), so fuel `pattern.length + name.length + 1` never runs out. -/
def goMatchFuel : Nat → List Char → List Char → Bool
  | 0, _, _ => false
  | _ + 1, [], name => name.isEmpty
  | fuel + 1, '*' :: ps, name =>
    goMatchFuel fuel ps name ||
      (match name with
       | [] => false
       | c :: rest => if c = '/' then false else goMatchFuel fuel ('*' :: ps) rest)
  | fuel + 1, '?' :: ps, name =>
    (match name with
     | [] => false
     | c :: rest => if c = '/' then false else goMatchFuel fuel ps rest)
  | fuel + 1, '[' :: ps, name =>
    (match parseClass ps with
     | none => false
     | some (negated, ranges, rest) =>
       match name with
       | [] => false
       | c :: nrest =>
         let inRanges := ranges.any (fun r => r.1 ≤ c ∧ c ≤ r.2)
         if inRanges = negated then false else goMatchFuel fuel rest nrest)
  | fuel + 1, '\\' :: ps, name =>
    (match ps with
     | [] => false
     | c :: ps2 =>
       match name with
       | [] => false
       | d :: nrest => c = d && goMatchFuel fuel ps2 nrest)
  | fuel + 1, c :: ps, name =>
    (match name with
     | [] => false
     | d :: nrest => c = d && goMatchFuel fuel ps nrest)

/-- `filepath.Match pattern name`, error discarded (see `goMatchFuel`). -/
def goMatchS (pattern name : String) : Bool :=
  goMatchFuel (pattern.data.length + name.data.length + 1) pattern.data name.data

/-! ### Model of the Go standard library: `filepath.Clean`, `filepath.Rel`

The Unix build: no volume names, the separator is `/`. -/

/-- `filepath.ToSlash`: replaces the separator by `/`; the identity on the
Unix build. -/
def toSlash (s : String) : String := s

/-- The segment-processing step of `filepath.Clean`: the accumulator is the
output segment list in reverse. -/
def cleanStep (rooted : Bool) (acc : List String) (seg : String) : List String :=
  if seg = "" ∨ seg = "." then acc
  else if seg = ".." then
    match acc with
    | [] => if rooted then [] else [".."]
    | a :: rest => if a = ".." then ".." :: a :: rest else rest
  else seg :: acc

/-- `filepath.Clean` (Unix): drop empty and `.` segments, resolve `..`
lexically (a `..` at the root vanishes), keep leading `..` on relative
paths; the empty result becomes `.`. -/
def goClean (path : String) : String :=
  if path = "" then "."
  else
    let rooted := HasPrefix path "/"
    let out := ((splitChar '/' path.data).map String.mk).foldl (cleanStep rooted) []
    let body := JoinSlash out.reverse
    if rooted then ⟨'/' :: body.data⟩
    else if body = "" then "." else body

/-- Segment list of a cleaned path as `filepath.Rel`'s element scan sees it:
a rooted path contributes a leading empty element, the empty string none. -/
def relSegs (p : String) : List String :=
  if p = "" then [] else if p = "/" then [""] else SplitSlash p

/-- Drop the longest common prefix of two segment lists (the first loop of
`filepath.Rel`). -/
def dropCommon : List String → List String → List String × List String
  | a :: as, b :: bs =>
    if a = b then dropCommon as bs else (a :: as, b :: bs)
  | as, bs => (as, bs)

/-- `filepath.Rel basepath targpath` (Unix): `none` models the error return
("can't make targ relative to base"). -/
def goRel (basepath targpath : String) : Option String :=
  let base := goClean basepath
  let targ := goClean targpath
  if targ = base then some "."
  else
    let base := if base = "." then "" else base
    if HasPrefix base "/" ≠ HasPrefix targ "/" then none
    else
      let bt := dropCommon (relSegs base) (relSegs targ)
      match bt.1 with
      | b0 :: brest =>
        if b0 = ".." then none
        else
          some (JoinSlash (List.replicate (b0 :: brest).length ".." ++ bt.2))
      | [] => some (JoinSlash bt.2)

/-! ### The repository: `ignore.go`

Translated from `ignore.go`.  Methods do not read their receiver beyond the
listed fields, mutation is explicit state passing, and the two
file-system touch points are oracles: `stat : String → Option Bool`
models `os.Stat` (`none` a failed stat, `some b` success with
`fi.IsDir() = b`), and `OpenResult` models what `os.Open`/`bufio.Scanner`
deliver for the ignore file. -/

/-- The `ignorePattern` struct. -/
structure ignorePattern where
  pattern : String
  isNegate : Bool
  isDir : Bool
  deriving DecidableEq, Repr

/-- The `IgnoreMatcher` struct. -/
structure IgnoreMatcher where
  patterns : List ignorePattern
  root : String
  deriving DecidableEq, Repr

/-- `NewIgnoreMatcher`. -/
def NewIgnoreMatcher (root : String) : IgnoreMatcher :=
  { root := root, patterns := [] }

/-- `AddPattern`: trim, drop blanks and `#` comments, strip a leading `!`
into `isNegate` and a trailing `/` into `isDir`, append. -/
def AddPattern (im : IgnoreMatcher) (pattern : String) : IgnoreMatcher :=
  let pattern := TrimSpace pattern
  if pattern = "" ∨ HasPrefix pattern "#" = true then im
  else
    let isNeg := HasPrefix pattern "!"
    let pat1 := if isNeg then strDrop pattern 1 else pattern
    let isDir := HasSuffix pat1 "/"
    let pat2 := if isDir then TrimSuffix pat1 "/" else pat1
    { im with patterns := im.patterns ++ [{ pattern := pat2, isNegate := isNeg, isDir := isDir }] }

/-- What `os.Open` plus the `bufio.Scanner` loop deliver for the ignore
file: the file is absent, the open fails otherwise, or the scan yields
`lines` (all of them when `scanErr = none`, the ones read before a read
failure when `scanErr = some e`, which is then `scanner.Err()`). -/
inductive OpenResult where
  | notExist
  | openErr (e : String)
  | opened (lines : List String) (scanErr : Option String)
  deriving DecidableEq, Repr

/-- `LoadIgnoreFile`: absent file is success without change; an open error
is surfaced; otherwise every scanned line goes through `AddPattern` and the
scanner's error, if any, is surfaced.  Returns (new matcher, error). -/
def LoadIgnoreFile (im : IgnoreMatcher) (r : OpenResult) : IgnoreMatcher × Option String :=
  match r with
  | .notExist => (im, none)
  | .openErr e => (im, some e)
  | .opened lines scanErr => (lines.foldl AddPattern im, scanErr)

/-- The scan loop of `indexGlob` for a non-literal `seg`: the first position
`i ≤ s.length` at which `filepath.Match seg s[i:]` succeeds. -/
def indexGlobScan (seg : List Char) : List Char → Option Nat
  | [] => if goMatchFuel (seg.length + 1) seg [] then some 0 else none
  | c :: t =>
    if goMatchFuel (seg.length + (c :: t).length + 1) seg (c :: t) then some 0
    else (indexGlobScan seg t).map (· + 1)

/-- `indexGlob s seg`: first index where the glob `seg` matches in `s`
(`strings.Index` when `seg` has no glob character, otherwise a scan over
all cut points); `none` models `-1`. -/
def indexGlob (s seg : String) : Option Nat :=
  if ¬ ContainsAnyGlob seg then goIndex s seg
  else indexGlobScan seg.data s.data

/-- The `for i := 1; i < len(parts)` loop of `matchDoublestar`: each
slash-trimmed non-empty inter-`**` segment must be found in order, and the
cursor advances past the found occurrence by the segment's text length. -/
def dsLoop : List String → String → Bool
  | [], _ => true
  | part :: ps, cur =>
    let seg := TrimSlashes part
    if seg = "" then dsLoop ps cur
    else
      match indexGlob cur seg with
      | none => false
      | some idx => dsLoop ps (strDrop cur (idx + seg.data.length))

/-- `matchDoublestar`: a bare `**` matches everything; otherwise the text
before the first `**` (trailing slash trimmed, then a leading slash
trimmed) must be a prefix of the path, and the remaining inter-`**`
segments must appear in order (`dsLoop`). -/
def matchDoublestar (pattern path : String) : Bool :=
  let pattern := toSlash pattern
  let path := toSlash path
  if TrimSlashes pattern = "**" then true
  else
    match SplitStarStar pattern with
    | [] => false
    | first :: rest =>
      let leading := TrimSuffix first "/"
      if leading ≠ "" ∧ HasPrefix path (TrimPrefix leading "/") = false then false
      else
        let cur :=
          if leading ≠ "" then
            TrimPrefix (TrimPrefix path (TrimPrefix leading "/")) "/"
          else path
        dsLoop rest cur

/-- `matchGlob`: `**` patterns go to `matchDoublestar`; otherwise
`filepath.Match` against the whole path, then against every individual
path segment. -/
def matchGlob (pattern path : String) : Bool :=
  if ContainsStarStar pattern then matchDoublestar pattern path
  else if goMatchS pattern path then true
  else (SplitSlash path).any (fun part => goMatchS pattern part)

/-- The `for i := range parts` loop of `matchPattern`: at every start index
try the joined tail (`subPath`) and the single segment. -/
def matchPatternScan (pattern : String) : List String → Bool
  | [] => false
  | p :: ps =>
    matchGlob pattern (JoinSlash (p :: ps)) || matchGlob pattern p ||
      matchPatternScan pattern ps

/-- `matchPattern`: a pattern starting with `/` is matched (slash stripped)
against the path by `matchGlob` alone; otherwise against the whole path and
then at every level. -/
def matchPattern (pattern path : String) : Bool :=
  if HasPrefix pattern "/" then matchGlob (strDrop pattern 1) path
  else if matchGlob pattern path then true
  else matchPatternScan pattern (SplitSlash path)

/-- The `for _, p := range im.patterns` loop of `ShouldIgnore`, with the
running `ignored` flag: a directory pattern that matches the path or is a
`/`-prefix of it sets the flag from its negation and continues; otherwise
the regular `matchPattern` check runs. -/
def shouldIgnoreLoop : List ignorePattern → String → Bool → Bool
  | [], _, ignored => ignored
  | p :: ps, relPath, ignored =>
    let pat := TrimPrefix p.pattern "./"
    if p.isDir && (matchPattern pat relPath || HasPrefix (relPath ++ "/") (pat ++ "/")) then
      shouldIgnoreLoop ps relPath (if p.isNegate then false else true)
    else if matchPattern pat relPath then
      shouldIgnoreLoop ps relPath (if p.isNegate then false else true)
    else
      shouldIgnoreLoop ps relPath ignored

/-- Lines 83–91 of `ShouldIgnore`: relativize against the root (keeping the
input on failure), normalize separators, trim a leading `./`. -/
def relOf (root path : String) : String :=
  let relPath :=
    match goRel root path with
    | some r => r
    | none => path
  TrimPrefix (toSlash relPath) "./"

/-- Lines 93–99 of `ShouldIgnore`: the syntactic trailing-slash test with the
`os.Stat` fallback.  The result is assigned and — exactly as in the
source — never read afterwards. -/
def isDirOf (stat : String → Option Bool) (relPath path : String) : Bool :=
  let isDir := HasSuffix relPath "/"
  if isDir = false then
    match stat path with
    | some true => true
    | _ => isDir
  else isDir

/-- `ShouldIgnore`: `none` models a nil `*IgnoreMatcher` receiver.  A nil or
empty matcher ignores nothing; otherwise the patterns are folded over the
normalized relative path. -/
def ShouldIgnore (im? : Option IgnoreMatcher) (stat : String → Option Bool)
    (path : String) : Bool :=
  match im? with
  | none => false
  | some im =>
    if im.patterns.length = 0 then false
    else
      let relPath := relOf im.root path
      let _isDir := isDirOf stat relPath path
      shouldIgnoreLoop im.patterns relPath false

/-- `DefaultIgnorePatterns`. -/
def DefaultIgnorePatterns : List String :=
  [".git/", ".svn/", ".hg/", ".bzr/", "node_modules/", "vendor/", "*.swp",
   "*.swo", "*~", ".DS_Store", "Thumbs.db", "__pycache__/", "*.pyc",
   ".idea/", ".vscode/", "*.log", ".notifyignore", ".gitignore"]

/-! ### Derived notions used to state the claims -/

/-- The exact condition under which one loop iteration of `ShouldIgnore`
overwrites the running flag for pattern `p` (the `continue` branch for
directory patterns, or the regular `matchPattern` check): the per-pattern
"matches" notion of the fold.  It does not read `p.isNegate`. -/
def patMatched (p : ignorePattern) (relPath : String) : Bool :=
  let pat := TrimPrefix p.pattern "./"
  (p.isDir && (matchPattern pat relPath || HasPrefix (relPath ++ "/") (pat ++ "/"))) ||
    matchPattern pat relPath

/-- The glob body and directory flag `AddPattern` compiles out of a trimmed,
non-negated, non-comment line. -/
def compileBody (A : String) : String :=
  if HasSuffix A "/" then TrimSuffix A "/" else A

/-! ### Definitions following the spec's words, for refinement comparisons -/

/-- Modelled from the spec: the doublestar rule of §4.2 — "split on the
first `**` token into `prefix` and `suffix` (trailing/leading `/` around
the token trimmed).  If `prefix` is non-empty, the path must start with it;
if `suffix` is empty, prefix-match alone succeeds.  If `suffix` is
non-empty, scan every segment-boundary cut point in the remainder after the
prefix and test whether the remaining substring from that cut point
glob-matches `suffix`".  (Bodies without `**` are outside the rule; the
value there is irrelevant to its use.) -/
def specDoublestarMatch (pattern path : String) : Bool :=
  match goIndex pattern "**" with
  | none => false
  | some i =>
    let pre := TrimSuffix (strTake pattern i) "/"
    let suf := TrimPrefix (strDrop pattern (i + 2)) "/"
    if pre ≠ "" ∧ HasPrefix path pre = false then false
    else if suf = "" then true
    else
      let remaining := TrimPrefix (TrimPrefix path pre) "/"
      let pathParts := SplitSlash remaining
      (List.range (pathParts.length + 1)).any
        (fun k => goMatchS suf (JoinSlash (pathParts.drop k)))

/-- Modelled from the spec: the unanchored-position rule of §4.2 — the glob
body matches the full path, or some path suffix obtained by dropping one or
more leading segments, or the final segment (basename) alone; no other
position counts. -/
def specUnanchoredMatch (pattern path : String) : Bool :=
  let segs := SplitSlash path
  goMatchS pattern path ||
    (List.range segs.length).any
      (fun i => decide (1 ≤ i) && goMatchS pattern (JoinSlash (segs.drop i))) ||
    goMatchS pattern (segs.getLastD "")

/-- Modelled from the spec: the directory-only propagation rule of §4.2 for
a non-directory candidate — "a non-directory candidate is considered
matched by a directory-only pattern if the pattern matches the candidate's
*directory* or any ancestor directory of the candidate": the engine's
`matchPattern` applied to every proper leading segment prefix of the
relative path. -/
def specDirAncestorMatch (pat relPath : String) : Bool :=
  let segs := SplitSlash relPath
  (List.range segs.length).any
    (fun i => decide (1 ≤ i) && matchPattern pat (JoinSlash (segs.take i)))

/-! ### Concrete matchers of the test scenarios -/

/-- The matcher of the end-to-end scenario (root `R` taken as `/w`), patterns
added in the spec's order. -/
def endToEndMatcher : IgnoreMatcher :=
  [".git/", "node_modules/", "build/", "*.log", "!build/important.log"].foldl
    AddPattern (NewIgnoreMatcher "/w")

/-- A matcher with the single anchored pattern `/src`. -/
def srcAnchoredMatcher : IgnoreMatcher :=
  AddPattern (NewIgnoreMatcher "/w") "/src"

/-- A matcher with the single directory-only pattern `build/`. -/
def buildMatcher : IgnoreMatcher :=
  AddPattern (NewIgnoreMatcher "/w") "build/"

/-- A matcher with the single pattern `**/*.log`. -/
def logsMatcher : IgnoreMatcher :=
  AddPattern (NewIgnoreMatcher "/w") "**/*.log"

/-- A matcher with the single pattern `src/**/test/`. -/
def testDirMatcher : IgnoreMatcher :=
  AddPattern (NewIgnoreMatcher "/w") "src/**/test/"

/-- A stat oracle whose every query fails (`os.Stat` returns an error). -/
def statNone : String → Option Bool := fun _ => none

/-! ### General lemmas about the embedding -/

theorem data_mk (l : List Char) : (String.mk l).data = l := rfl

theorem strMk_data (s : String) : String.mk s.data = s := by
  cases s
  rfl

theorem splitChar_ne_nil (sep : Char) (l : List Char) : splitChar sep l ≠ [] := by
  induction l with
  | nil => simp [splitChar]
  | cons c cs ih =>
    simp only [splitChar]
    split
    · simp
    · cases h : splitChar sep cs with
      | nil => exact absurd h ih
      | cons g gs => simp [consHeadC]

theorem joinChar_splitChar (sep : Char) (l : List Char) :
    joinChar sep (splitChar sep l) = l := by
  induction l with
  | nil => rfl
  | cons c cs ih =>
    simp only [splitChar]
    split
    · rename_i h
      cases hs : splitChar sep cs with
      | nil => exact absurd hs (splitChar_ne_nil sep cs)
      | cons g gs =>
        rw [hs] at ih
        simp [joinChar, ← ih, h]
    · rename_i h
      cases hs : splitChar sep cs with
      | nil => exact absurd hs (splitChar_ne_nil sep cs)
      | cons g gs =>
        rw [hs] at ih
        cases gs with
        | nil => simp_all [consHeadC, joinChar]
        | cons g2 gs2 => simp_all [consHeadC, joinChar]

theorem mem_splitChar_not_sep (sep : Char) (l : List Char) :
    ∀ g ∈ splitChar sep l, sep ∉ g := by
  induction l with
  | nil => simp [splitChar]
  | cons c cs ih =>
    simp only [splitChar]
    split
    · intro g hg
      rcases List.mem_cons.mp hg with h | h
      · simp [h]
      · exact ih g h
    · rename_i hc
      cases hs : splitChar sep cs with
      | nil => exact absurd hs (splitChar_ne_nil sep cs)
      | cons g0 gs =>
        intro g hg
        rcases List.mem_cons.mp hg with h | h
        · subst h
          intro hmem
          rcases List.mem_cons.mp hmem with h' | h'
          · exact hc h'.symm
          · exact ih g0 (hs ▸ List.mem_cons_self g0 gs) h'
        · exact ih g (hs ▸ List.mem_cons_of_mem g0 h)

theorem splitChar_of_not_mem (sep : Char) (g : List Char) (h : sep ∉ g) :
    splitChar sep g = [g] := by
  induction g with
  | nil => rfl
  | cons c cs ih =>
    have hc : ¬ c = sep := fun hcs => h (hcs ▸ List.mem_cons_self c cs)
    have hcs : sep ∉ cs := fun hm => h (List.mem_cons_of_mem c hm)
    simp [splitChar, hc, ih hcs, consHeadC]

theorem splitChar_append_sep (sep : Char) (g t : List Char) (h : sep ∉ g) :
    splitChar sep (g ++ sep :: t) = g :: splitChar sep t := by
  induction g with
  | nil => simp [splitChar]
  | cons c cs ih =>
    have hc : ¬ c = sep := fun hcs => h (hcs ▸ List.mem_cons_self c cs)
    have hcs : sep ∉ cs := fun hm => h (List.mem_cons_of_mem c hm)
    simp [List.cons_append, splitChar, hc, ih hcs, consHeadC]

theorem splitChar_joinChar (sep : Char) (ls : List (List Char))
    (h : ∀ g ∈ ls, sep ∉ g) (hne : ls ≠ []) :
    splitChar sep (joinChar sep ls) = ls := by
  induction ls with
  | nil => exact absurd rfl hne
  | cons g gs ih =>
    cases gs with
    | nil =>
      simp only [joinChar]
      exact splitChar_of_not_mem sep g (h g (List.mem_cons_self g []))
    | cons g2 gs2 =>
      have hg : sep ∉ g := h g (List.mem_cons_self g _)
      have hrest : ∀ x ∈ g2 :: gs2, sep ∉ x := fun x hx => h x (List.mem_cons_of_mem g hx)
      simp only [joinChar]
      rw [splitChar_append_sep sep g _ hg, ih hrest (by simp)]

theorem JoinSlash_SplitSlash (s : String) : JoinSlash (SplitSlash s) = s := by
  unfold JoinSlash SplitSlash
  rw [List.map_map]
  have hmap : (splitChar '/' s.data).map (String.data ∘ String.mk) = splitChar '/' s.data := by
    simp [Function.comp_def]
  rw [hmap, joinChar_splitChar]

theorem mem_SplitSlash_slashFree (s : String) :
    ∀ g ∈ SplitSlash s, '/' ∉ g.data := by
  intro g hg
  rcases List.mem_map.mp hg with ⟨g0, hg0, hmk⟩
  rw [← hmk, data_mk]
  exact mem_splitChar_not_sep '/' s.data g0 hg0

theorem SplitSlash_JoinSlash (l : List String)
    (h : ∀ g ∈ l, '/' ∉ g.data) (hne : l ≠ []) :
    SplitSlash (JoinSlash l) = l := by
  unfold SplitSlash JoinSlash
  rw [data_mk, splitChar_joinChar '/' (l.map String.data)
    (by intro g hg
        rcases List.mem_map.mp hg with ⟨s, hs, hd⟩
        exact hd ▸ h s hs)
    (by simpa using hne)]
  rw [List.map_map]
  simp [Function.comp_def, strMk_data]

theorem SplitSlash_single (s : String) (h : '/' ∉ s.data) : SplitSlash s = [s] := by
  unfold SplitSlash
  rw [splitChar_of_not_mem '/' s.data h]
  simp [strMk_data]

theorem matchGlob_no_ss (pattern path : String)
    (hss : ContainsStarStar pattern = false) :
    matchGlob pattern path =
      (goMatchS pattern path || (SplitSlash path).any (goMatchS pattern)) := by
  unfold matchGlob
  rw [hss]
  cases h : goMatchS pattern path <;> simp [h]

theorem shouldIgnoreLoop_cons (p : ignorePattern) (ps : List ignorePattern)
    (relPath : String) (ignored : Bool) :
    shouldIgnoreLoop (p :: ps) relPath ignored =
      shouldIgnoreLoop ps relPath (if patMatched p relPath then !p.isNegate else ignored) := by
  obtain ⟨pat0, neg, dirf⟩ := p
  simp only [shouldIgnoreLoop, patMatched]
  cases dirf <;>
    cases hm : matchPattern (TrimPrefix pat0 "./") relPath <;>
      cases hp : HasPrefix (relPath ++ "/") (TrimPrefix pat0 "./" ++ "/") <;>
        cases neg <;>
          simp [hm, hp]

theorem matchGlob_single (pattern p : String)
    (hss : ContainsStarStar pattern = false) (hp : '/' ∉ p.data) :
    matchGlob pattern p = goMatchS pattern p := by
  rw [matchGlob_no_ss pattern p hss, SplitSlash_single p hp]
  cases h : goMatchS pattern p <;> simp [h]

theorem matchGlob_join (pattern : String) (ls : List String)
    (hss : ContainsStarStar pattern = false)
    (h : ∀ g ∈ ls, '/' ∉ g.data) (hne : ls ≠ []) :
    matchGlob pattern (JoinSlash ls) =
      (goMatchS pattern (JoinSlash ls) || ls.any (goMatchS pattern)) := by
  rw [matchGlob_no_ss pattern _ hss, SplitSlash_JoinSlash ls h hne]

theorem matchPatternScan_iff (pattern : String)
    (hss : ContainsStarStar pattern = false) :
    ∀ ls : List String, (∀ g ∈ ls, '/' ∉ g.data) →
      (matchPatternScan pattern ls = true ↔
        ((∃ t, t <:+ ls ∧ t ≠ [] ∧ goMatchS pattern (JoinSlash t) = true) ∨
          ∃ seg ∈ ls, goMatchS pattern seg = true)) := by
  intro ls
  induction ls with
  | nil =>
    intro _
    constructor
    · intro h
      exact absurd h (by simp [matchPatternScan])
    · rintro (⟨t, ht, htne, _⟩ | ⟨seg, hseg, _⟩)
      · exact absurd (List.suffix_nil.mp ht) htne
      · exact absurd hseg (List.not_mem_nil seg)
  | cons p ps ih =>
    intro hfree
    have hp : '/' ∉ p.data := hfree p (List.mem_cons_self p ps)
    have hps : ∀ g ∈ ps, '/' ∉ g.data := fun g hg => hfree g (List.mem_cons_of_mem p hg)
    simp only [matchPatternScan]
    rw [matchGlob_join pattern (p :: ps) hss hfree (by simp), matchGlob_single pattern p hss hp]
    constructor
    · intro h
      simp only [Bool.or_eq_true, List.any_eq_true] at h
      rcases h with ((hfull | ⟨seg, hseg, hm⟩) | hone) | hscan
      · exact Or.inl ⟨p :: ps, List.suffix_refl _, by simp, hfull⟩
      · exact Or.inr ⟨seg, hseg, hm⟩
      · exact Or.inr ⟨p, List.mem_cons_self p ps, hone⟩
      · rcases (ih hps).mp hscan with ⟨t, ht, htne, hm⟩ | ⟨seg, hseg, hm⟩
        · exact Or.inl ⟨t, ht.trans (List.suffix_cons p ps), htne, hm⟩
        · exact Or.inr ⟨seg, List.mem_cons_of_mem p hseg, hm⟩
    · intro h
      simp only [Bool.or_eq_true, List.any_eq_true]
      rcases h with ⟨t, ht, htne, hm⟩ | ⟨seg, hseg, hm⟩
      · rcases List.suffix_cons_iff.mp ht with heq | htail
        · subst heq
          exact Or.inl (Or.inl (Or.inl hm))
        · exact Or.inr ((ih hps).mpr (Or.inl ⟨t, htail, htne, hm⟩))
      · rcases List.mem_cons.mp hseg with heq | hmem
        · subst heq
          exact Or.inl (Or.inl (Or.inr ⟨seg, List.mem_cons_self seg ps, hm⟩))
        · exact Or.inr ((ih hps).mpr (Or.inr ⟨seg, hmem, hm⟩))

theorem strCons_ne_empty (c : Char) (s : String) : strCons c s ≠ "" := by
  intro h
  have hd := congrArg String.data h
  simp [strCons] at hd

theorem addPattern_plain (im : IgnoreMatcher) (A : String)
    (h1 : TrimSpace A = A) (h2 : A ≠ "") (h3 : HasPrefix A "#" = false)
    (h4 : HasPrefix A "!" = false) :
    AddPattern im A =
      { im with patterns :=
          im.patterns ++ [⟨compileBody A, false, HasSuffix A "/"⟩] } := by
  simp only [AddPattern, h1, h3, h4]
  rw [if_neg (by simp [h2])]
  simp [compileBody]

theorem addPattern_negated (im : IgnoreMatcher) (A : String)
    (h5 : TrimSpace (strCons '!' A) = strCons '!' A) :
    AddPattern im (strCons '!' A) =
      { im with patterns :=
          im.patterns ++ [⟨compileBody A, true, HasSuffix A "/"⟩] } := by
  have hpfa : HasPrefix (strCons '!' A) "#" = false := rfl
  have hneg : HasPrefix (strCons '!' A) "!" = true := rfl
  have hdrop : strDrop (strCons '!' A) 1 = A := rfl
  simp only [AddPattern, h5, hpfa, hneg, hdrop]
  rw [if_neg (by simp [strCons_ne_empty])]
  simp [compileBody]

theorem ite_true_or (x : Bool) (b : Bool) : (if x = true then true else b) = (x || b) := by
  cases x <;> simp

/-! ### The claims -/

/-- Claim C1: for a matcher with root `R` (`/w` here) and the patterns
`.git/`, `node_modules/`, `build/`, `*.log`, `!build/important.log` added in
that order, `ShouldIgnore` is true for `.git`, `.git/objects`,
`node_modules`, `node_modules/package1`, `build`, `build/output`, `test.log`
and `src/debug.log`, and false for `build/important.log`, `src`, `src/main`
and `docs` — whatever the stat oracle answers. -/
theorem end_to_end_scenario : ∀ stat : String → Option Bool,
    ShouldIgnore (some endToEndMatcher) stat "/w/.git" = true ∧
    ShouldIgnore (some endToEndMatcher) stat "/w/.git/objects" = true ∧
    ShouldIgnore (some endToEndMatcher) stat "/w/node_modules" = true ∧
    ShouldIgnore (some endToEndMatcher) stat "/w/node_modules/package1" = true ∧
    ShouldIgnore (some endToEndMatcher) stat "/w/build" = true ∧
    ShouldIgnore (some endToEndMatcher) stat "/w/build/output" = true ∧
    ShouldIgnore (some endToEndMatcher) stat "/w/build/important.log" = false ∧
    ShouldIgnore (some endToEndMatcher) stat "/w/src" = false ∧
    ShouldIgnore (some endToEndMatcher) stat "/w/src/main" = false ∧
    ShouldIgnore (some endToEndMatcher) stat "/w/docs" = false ∧
    ShouldIgnore (some endToEndMatcher) stat "/w/test.log" = true ∧
    ShouldIgnore (some endToEndMatcher) stat "/w/src/debug.log" = true :=
  fun _ => ⟨rfl, rfl, rfl, rfl, rfl, rfl, rfl, rfl, rfl, rfl, rfl, rfl⟩

/-- Claim C2: the fold over the patterns runs in insertion order and every
matching pattern overwrites the running decision with the negation of its
own negate flag (first conjunct, the exact step equation of the loop); in
consequence, for a line `A` that compiles to a pattern matching the
normalized relative path, adding `A` then `!A` yields `false` and adding
`!A` then `A` yields `true`. -/
theorem order_override_decision :
    (∀ (p : ignorePattern) (ps : List ignorePattern) (rel : String) (acc : Bool),
      shouldIgnoreLoop (p :: ps) rel acc =
        shouldIgnoreLoop ps rel (if patMatched p rel then !p.isNegate else acc)) ∧
    (∀ (root A : String) (stat : String → Option Bool) (path : String),
      TrimSpace A = A → A ≠ "" → HasPrefix A "#" = false → HasPrefix A "!" = false →
      TrimSpace (strCons '!' A) = strCons '!' A →
      patMatched ⟨compileBody A, false, HasSuffix A "/"⟩ (relOf root path) = true →
      ShouldIgnore (some (AddPattern (AddPattern (NewIgnoreMatcher root) A)
          (strCons '!' A))) stat path = false ∧
      ShouldIgnore (some (AddPattern (AddPattern (NewIgnoreMatcher root)
          (strCons '!' A)) A)) stat path = true) := by
  refine ⟨shouldIgnoreLoop_cons, ?_⟩
  intro root A stat path h1 h2 h3 h4 h5 h6
  have h6' : patMatched ⟨compileBody A, true, HasSuffix A "/"⟩ (relOf root path) = true := h6
  have e1 : AddPattern (NewIgnoreMatcher root) A =
      ⟨[⟨compileBody A, false, HasSuffix A "/"⟩], root⟩ := by
    rw [addPattern_plain _ _ h1 h2 h3 h4]
    rfl
  have e2 : AddPattern (NewIgnoreMatcher root) (strCons '!' A) =
      ⟨[⟨compileBody A, true, HasSuffix A "/"⟩], root⟩ := by
    rw [addPattern_negated _ _ h5]
    rfl
  have e12 : AddPattern (AddPattern (NewIgnoreMatcher root) A) (strCons '!' A) =
      ⟨[⟨compileBody A, false, HasSuffix A "/"⟩,
        ⟨compileBody A, true, HasSuffix A "/"⟩], root⟩ := by
    rw [e1, addPattern_negated _ _ h5]
    rfl
  have e21 : AddPattern (AddPattern (NewIgnoreMatcher root) (strCons '!' A)) A =
      ⟨[⟨compileBody A, true, HasSuffix A "/"⟩,
        ⟨compileBody A, false, HasSuffix A "/"⟩], root⟩ := by
    rw [e2, addPattern_plain _ _ h1 h2 h3 h4]
    rfl
  constructor
  · rw [e12]
    simp only [ShouldIgnore]
    rw [if_neg (by simp)]
    rw [shouldIgnoreLoop_cons, shouldIgnoreLoop_cons, h6, h6']
    simp [shouldIgnoreLoop]
  · rw [e21]
    simp only [ShouldIgnore]
    rw [if_neg (by simp)]
    rw [shouldIgnoreLoop_cons, shouldIgnoreLoop_cons, h6, h6']
    simp [shouldIgnoreLoop]

/-- Witness for C2 at `A = *.log`, root `/w`, path `/w/t.log`. -/
theorem order_override_decision_witness :
    TrimSpace "*.log" = "*.log" ∧ "*.log" ≠ "" ∧
    HasPrefix "*.log" "#" = false ∧ HasPrefix "*.log" "!" = false ∧
    TrimSpace (strCons '!' "*.log") = strCons '!' "*.log" ∧
    patMatched ⟨compileBody "*.log", false, HasSuffix "*.log" "/"⟩
      (relOf "/w" "/w/t.log") = true ∧
    ShouldIgnore (some (AddPattern (AddPattern (NewIgnoreMatcher "/w") "*.log")
        (strCons '!' "*.log"))) statNone "/w/t.log" = false ∧
    ShouldIgnore (some (AddPattern (AddPattern (NewIgnoreMatcher "/w")
        (strCons '!' "*.log")) "*.log")) statNone "/w/t.log" = true :=
  ⟨by decide, by decide, by decide, by decide, by decide, by decide,
    (order_override_decision.2 "/w" "*.log" statNone "/w/t.log"
      (by decide) (by decide) (by decide) (by decide) (by decide) (by decide)).1,
    (order_override_decision.2 "/w" "*.log" statNone "/w/t.log"
      (by decide) (by decide) (by decide) (by decide) (by decide) (by decide)).2⟩

/-- Claim C3 (the code at the claim's inputs): with the single anchored
pattern `/src`, `ShouldIgnore` is true for the root-level `src` — and also
true for `lib/src`, although the claim (and the repository's README table)
says an anchored pattern matches the entire relative path only:
`matchGlob` additionally matches the glob against every individual path
segment, so `/src` matches the basename segment of `lib/src`. -/
theorem anchored_matches_below_root_eval :
    ShouldIgnore (some srcAnchoredMatcher) statNone "/w/src" = true ∧
    ShouldIgnore (some srcAnchoredMatcher) statNone "/w/lib/src" = true :=
  ⟨rfl, rfl⟩

/-- Claim C4, counterexample: with the single directory-only pattern
`build/` and the non-directory candidate `a/build` (the stat oracle reports
a file), the code ignores the path, while the claim's rule — matched
exactly when the pattern matches the candidate's directory or an ancestor
directory — does not fire (`matchPattern "build"` fails on `a` and on every
ancestor). -/
theorem dir_pattern_counterexample :
    ShouldIgnore (some buildMatcher) (fun _ => some false) "/w/a/build" = true ∧
    specDirAncestorMatch "build" "a/build" = false :=
  ⟨rfl, rfl⟩

/-- Claim C4, amended: the concrete examples hold (`build/` ignores
`build`, `build/output`, `build/output/file.txt` and not `builder`,
whatever the stat oracle answers), and for every candidate — directory or
not — a directory-only pattern overwrites the decision exactly when
`matchPattern` succeeds on the candidate path itself or the pattern plus
`/` is a prefix of the candidate plus `/` (descendant propagation); the
candidate's directory-ness never enters. -/
theorem dir_pattern_amended :
    (∀ stat : String → Option Bool,
      ShouldIgnore (some buildMatcher) stat "/w/build" = true ∧
      ShouldIgnore (some buildMatcher) stat "/w/build/output" = true ∧
      ShouldIgnore (some buildMatcher) stat "/w/build/output/file.txt" = true ∧
      ShouldIgnore (some buildMatcher) stat "/w/builder" = false) ∧
    (∀ (pat0 : String) (neg : Bool) (ps : List ignorePattern) (rel : String) (acc : Bool),
      shouldIgnoreLoop ({ pattern := pat0, isNegate := neg, isDir := true } :: ps) rel acc =
        shouldIgnoreLoop ps rel
          (if matchPattern (TrimPrefix pat0 "./") rel ||
              HasPrefix (rel ++ "/") (TrimPrefix pat0 "./" ++ "/") then !neg else acc)) := by
  constructor
  · exact fun _ => ⟨rfl, rfl, rfl, rfl⟩
  · intro pat0 neg ps rel acc
    rw [shouldIgnoreLoop_cons]
    congr 1
    simp only [patMatched]
    cases hm : matchPattern (TrimPrefix pat0 "./") rel <;>
      cases hp : HasPrefix (rel ++ "/") (TrimPrefix pat0 "./" ++ "/") <;>
        simp [hm, hp]

/-- Claim C5, counterexample: the glob body `src/**/test` matches the path
`src/testify` in the code (the suffix is searched for at every character
position, as a substring), while the claim's rule — the remainder from some
segment-boundary cut point glob-matches the suffix — rejects it. -/
theorem doublestar_counterexample :
    matchDoublestar "src/**/test" "src/testify" = true ∧
    specDoublestarMatch "src/**/test" "src/testify" = false :=
  ⟨rfl, rfl⟩

/-- Claim C5, amended: the body is split on every `**`; the text before the
first `**` (slashes around the token trimmed) must be a prefix of the path,
and each later non-empty inter-token segment must be found in order in the
remaining text at any character position — a literal segment as a plain
substring, with no requirement to end at a segment boundary or at the end
of the path.  The claim's examples hold: `**/*.log` matches `debug.log` at
the root and at any depth, `src/**/test/` matches `src/test`, `src/a/test`
and `src/a/b/test` but not `other/test`; and `src/**/test` also matches
`src/testify`, `src/**/ab.log` also matches `src/xab.log`. -/
theorem doublestar_amended :
    (∀ stat : String → Option Bool,
      ShouldIgnore (some logsMatcher) stat "/w/debug.log" = true ∧
      ShouldIgnore (some logsMatcher) stat "/w/src/debug.log" = true ∧
      ShouldIgnore (some logsMatcher) stat "/w/src/logs/error.log" = true ∧
      ShouldIgnore (some testDirMatcher) stat "/w/src/test" = true ∧
      ShouldIgnore (some testDirMatcher) stat "/w/src/a/test" = true ∧
      ShouldIgnore (some testDirMatcher) stat "/w/src/a/b/test" = true ∧
      ShouldIgnore (some testDirMatcher) stat "/w/other/test" = false) ∧
    matchDoublestar "src/**/test" "src/testify" = true ∧
    matchDoublestar "src/**/ab.log" "src/xab.log" = true :=
  ⟨fun _ => ⟨rfl, rfl, rfl, rfl, rfl, rfl, rfl⟩, rfl, rfl⟩

/-- Claim C6, counterexample: the unanchored pattern `src` matches the path
`a/src/b` in the code (`matchGlob` tries every individual segment, here the
interior segment `src`), while the claim's position list — full path, path
suffixes by dropping leading segments, basename — rejects it. -/
theorem unanchored_counterexample :
    matchPattern "src" "a/src/b" = true ∧
    specUnanchoredMatch "src" "a/src/b" = false :=
  ⟨rfl, rfl⟩

/-- Claim C6, amended (for unanchored glob bodies without `**`): the
pattern matches a candidate path exactly when `filepath.Match` accepts the
full path, or some suffix of the segment list (joined back with slashes),
or some individual segment — interior segments included, not only the
basename. -/
theorem unanchored_amended (pattern path : String)
    (h1 : HasPrefix pattern "/" = false) (h2 : ContainsStarStar pattern = false) :
    matchPattern pattern path = true ↔
      (goMatchS pattern path = true ∨
        (∃ t, t <:+ SplitSlash path ∧ t ≠ [] ∧ goMatchS pattern (JoinSlash t) = true) ∨
        ∃ seg ∈ SplitSlash path, goMatchS pattern seg = true) := by
  have hscan := matchPatternScan_iff pattern h2 (SplitSlash path)
    (mem_SplitSlash_slashFree path)
  simp only [matchPattern, h1, Bool.false_eq_true, if_false]
  rw [ite_true_or, matchGlob_no_ss pattern path h2]
  simp only [Bool.or_eq_true, List.any_eq_true]
  rw [hscan]
  constructor
  · rintro ((h | h) | (h | h))
    · exact Or.inl h
    · exact Or.inr (Or.inr h)
    · exact Or.inr (Or.inl h)
    · exact Or.inr (Or.inr h)
  · rintro (h | h | h)
    · exact Or.inl (Or.inl h)
    · exact Or.inr (Or.inl h)
    · exact Or.inr (Or.inr h)

/-- Witness for C6 at the pattern `*.log` and the path `a/b.log`. -/
theorem unanchored_amended_witness :
    HasPrefix "*.log" "/" = false ∧ ContainsStarStar "*.log" = false ∧
    (matchPattern "*.log" "a/b.log" = true ↔
      (goMatchS "*.log" "a/b.log" = true ∨
        (∃ t, t <:+ SplitSlash "a/b.log" ∧ t ≠ [] ∧
          goMatchS "*.log" (JoinSlash t) = true) ∨
        ∃ seg ∈ SplitSlash "a/b.log", goMatchS "*.log" seg = true)) :=
  ⟨by decide, by decide,
    unanchored_amended "*.log" "a/b.log" (by decide) (by decide)⟩

/-- Claim C7: `LoadIgnoreFile` on an absent file succeeds and leaves the
patterns unchanged; an open failure is surfaced unchanged; a read failure
midway is surfaced while the lines scanned before it stay appended
(best-effort); a clean read appends everything and succeeds. -/
theorem loadIgnoreFile_error_contract :
    ∀ (im : IgnoreMatcher) (e : String) (lines : List String),
      LoadIgnoreFile im OpenResult.notExist = (im, none) ∧
      LoadIgnoreFile im (OpenResult.openErr e) = (im, some e) ∧
      LoadIgnoreFile im (OpenResult.opened lines (some e)) =
        (lines.foldl AddPattern im, some e) ∧
      LoadIgnoreFile im (OpenResult.opened lines none) =
        (lines.foldl AddPattern im, none) :=
  fun _ _ _ => ⟨rfl, rfl, rfl, rfl⟩

/-- Claim C8: a nil matcher ignores nothing, and a matcher whose pattern
set is empty ignores nothing, for every stat oracle and every path. -/
theorem empty_or_absent_matcher :
    (∀ (stat : String → Option Bool) (path : String),
      ShouldIgnore none stat path = false) ∧
    (∀ (im : IgnoreMatcher) (stat : String → Option Bool) (path : String),
      im.patterns = [] → ShouldIgnore (some im) stat path = false) := by
  refine ⟨fun _ _ => rfl, fun im stat path h => ?_⟩
  simp [ShouldIgnore, h]

/-- Witness for C8: the empty matcher at a concrete path. -/
theorem empty_or_absent_matcher_witness :
    ShouldIgnore none statNone "/w/x" = false ∧
    ShouldIgnore (some (NewIgnoreMatcher "/w")) statNone "/w/x" = false :=
  ⟨empty_or_absent_matcher.1 statNone "/w/x",
    empty_or_absent_matcher.2 (NewIgnoreMatcher "/w") statNone "/w/x" rfl⟩

/-- Claim C9: `ShouldIgnore` is a pure function of the matcher (root and
patterns) and the candidate path: the stat oracle — the only external
outcome the call touches — never influences the result (it is computed into
`_isDir` and, as in the source, never read), so any two evaluations with
the same matcher and path agree even under different stat answers. -/
theorem shouldIgnore_stat_independent :
    ∀ (im : IgnoreMatcher) (stat1 stat2 : String → Option Bool) (path : String),
      ShouldIgnore (some im) stat1 path = ShouldIgnore (some im) stat2 path :=
  fun _ _ _ _ => rfl

/-- Claim C10: when the path cannot be relativized against the root
(`filepath.Rel` fails), `ShouldIgnore` does not fail: it evaluates all
patterns against the input path itself, separator-normalized and with a
leading `./` trimmed. -/
theorem rel_failure_fallback :
    ∀ (im : IgnoreMatcher) (stat : String → Option Bool) (path : String),
      goRel im.root path = none →
      ShouldIgnore (some im) stat path =
        shouldIgnoreLoop im.patterns (TrimPrefix (toSlash path) "./") false := by
  intro im stat path h
  by_cases hlen : im.patterns.length = 0
  · have hnil : im.patterns = [] := List.length_eq_zero.mp hlen
    simp [ShouldIgnore, hlen, hnil, shouldIgnoreLoop]
  · simp [ShouldIgnore, hlen, relOf, h]

/-- Witness for C10: a relative path under an absolute root cannot be
relativized; the matcher still reports `x.log` ignored via `*.log`. -/
theorem rel_failure_fallback_witness :
    goRel "/w" "x.log" = none ∧
    ShouldIgnore (some ⟨[⟨"*.log", false, false⟩], "/w"⟩) statNone "x.log" =
      shouldIgnoreLoop [⟨"*.log", false, false⟩]
        (TrimPrefix (toSlash "x.log") "./") false ∧
    ShouldIgnore (some ⟨[⟨"*.log", false, false⟩], "/w"⟩) statNone "x.log" = true :=
  ⟨by decide,
    rel_failure_fallback ⟨[⟨"*.log", false, false⟩], "/w"⟩ statNone "x.log" (by decide),
    by decide⟩

end Notify




